import Mathlib

/-!
Verification of the substitution-processor contract and the search pipeline of
search-dash.py (sources: dashsub.py, search.py, searchdash.py).

Strings are modelled as lists of characters.  Python's text.replace("-", c)
with a one-character pattern and a one-character replacement is exactly the
character map sending each '-' to c.  A raised exception is modelled with
Except; a method that mutates its object is modelled as a function from the
pre-call state to the pair of the returned (or raised) value and the
post-call state, with statement order preserved, so a raise that happens
before any mutation leaves the state component unchanged.
-/

namespace SearchDash

/-- string.ascii_lowercase, the substitution alphabet of dashsub.py. -/
def ALPHABET : List Char := "abcdefghijklmnopqrstuvwxyz".toList

/-- Exceptions raised by substitution processors.  StopIteration is what the
spec calls ExhaustedError; indexError models a Python IndexError from an
out-of-range alphabet access. -/
inductive ProcError where
  | exhausted
  | indexError
  deriving DecidableEq

/-- State of a DashSub instance (dashsub.py): _index is the current position
in the alphabet (0 = letter a), _done is True after z has been used. -/
structure DashSub where
  _index : Nat
  _done : Bool
  deriving DecidableEq

/-- DashSub.__init__: index 0, not done. -/
def DashSub.init : DashSub := ⟨0, false⟩

/-- text.replace("-", letter): every placeholder character becomes the
letter, all other characters are kept. -/
def replaceDash (letter : Char) (text : List Char) : List Char :=
  text.map (fun c => if c = '-' then letter else c)

/-- DashSub.process: raise StopIteration if already done (before any
mutation); otherwise replace every '-' in text with the current letter,
set _done when that letter was the last one, and advance the index. -/
def DashSub.process (s : DashSub) (text : List Char) :
    Except ProcError (List Char) × DashSub :=
  if s._done then (Except.error ProcError.exhausted, s)
  else
    match ALPHABET[s._index]? with
    | none => (Except.error ProcError.indexError, s)
    | some letter =>
      let result := replaceDash letter text
      let done2 := if s._index = ALPHABET.length - 1 then true else s._done
      (Except.ok result, ⟨s._index + 1, done2⟩)

/-- DashSub.is_done: the _done flag. -/
def DashSub.is_done (s : DashSub) : Bool := s._done

/-- DashSub.current_letter: the letter the next process call will use, the
empty string once done; none models an out-of-range alphabet access. -/
def DashSub.current_letter (s : DashSub) : Option (List Char) :=
  if s._done then some []
  else
    match ALPHABET[s._index]? with
    | some c => some [c]
    | none => none

/-- Repeated process calls on one DashSub instance, collecting the returned
strings in call order; the first raised error stops the run. -/
def DashSub.iterate (s : DashSub) (text : List Char) :
    Nat → Except ProcError (List (List Char)) × DashSub
  | 0 => (Except.ok [], s)
  | n + 1 =>
    match s.process text with
    | (Except.ok out, s2) =>
      match s2.iterate text n with
      | (Except.ok outs, s3) => (Except.ok (out :: outs), s3)
      | (Except.error e, s3) => (Except.error e, s3)
    | (Except.error e, s2) => (Except.error e, s2)

/-- States of a DashSub reachable from a fresh instance by successful
process calls. -/
inductive Reachable : DashSub → Prop where
  | init : Reachable DashSub.init
  | step (s : DashSub) (text out : List Char) (s2 : DashSub) :
      Reachable s → s.process text = (Except.ok out, s2) → Reachable s2

/-- State of a Search instance (search.py): only the _done flag. -/
structure Search where
  _done : Bool
  deriving DecidableEq

/-- Search.__init__: not done. -/
def Search.init : Search := ⟨false⟩

/-- Search.process: raise StopIteration if already done (before any
mutation); otherwise mark processing complete and return text unchanged. -/
def Search.process (p : Search) (text : List Char) :
    Except ProcError (List Char) × Search :=
  if p._done then (Except.error ProcError.exhausted, p)
  else (Except.ok text, ⟨true⟩)

/-- Search.is_done: the _done flag. -/
def Search.is_done (p : Search) : Bool := p._done

/-- A search result record produced by an engine: title, url, snippet and
engine name. -/
structure SearchResult where
  title : List Char
  url : List Char
  snippet : List Char
  engine : List Char
  deriving DecidableEq

/-- DEFAULT_MAX_RESULTS_PER_ENGINE of searchdash.py (a Python int). -/
def DEFAULT_MAX_RESULTS_PER_ENGINE : Int := 20

/-- Python list slicing xs[:n] for an int bound n: a nonnegative bound keeps
the first n elements, a negative bound drops the last -n elements (clamped
at the empty list). -/
def pyTake (xs : List α) (n : Int) : List α :=
  if 0 ≤ n then xs.take n.toNat
  else xs.take (xs.length - (-n).toNat)

/-- search_single_engine (searchdash.py): engine.search either returned a
result list (ok) or raised (error); a raised exception is caught, logged and
replaced by the empty list, and the list is then sliced to the first
max_results entries. -/
def search_single_engine (outcome : Except String (List SearchResult))
    (max_results : Int) : List SearchResult :=
  let results :=
    match outcome with
    | Except.ok rs => rs
    | Except.error _ => []
  pyTake results max_results

/-- One engine of a pipeline run: its display name together with the outcome
of its engine.search(query) call (ok results, or error when it raised). -/
structure EngineCall where
  name : List Char
  outcome : Except String (List SearchResult)

/-- run_search_pipeline: for each engine, in the order supplied, obtain the
bounded results and render them.  The returned list is the render sequence:
one (engine name, bounded results) block per engine, in input order. -/
def run_search_pipeline (engines : List EngineCall) (max_results : Int) :
    List (List Char × List SearchResult) :=
  engines.map (fun e => (e.name, search_single_engine e.outcome max_results))

/-- The process/is_done capability main looks up on the loaded substitution
module. -/
structure ProcIface (σ : Type) where
  process : σ → List Char → Except ProcError (List Char) × σ
  is_done : σ → Bool

/-- The DashSub plugin as seen by main. -/
def dashIface : ProcIface DashSub :=
  ⟨DashSub.process, DashSub.is_done⟩

/-- The Search plugin as seen by main. -/
def searchIface : ProcIface Search :=
  ⟨Search.process, Search.is_done⟩

/-- How a driver-loop run can fail: the fuel bound of the model ran out, or
the processor raised. -/
inductive DriverError where
  | fuelOut
  | procError (e : ProcError)
  deriving DecidableEq

/-- The iterative substitution loop of main: while not processor.is_done(),
query = processor.process(raw) and the pipeline runs with query.  The result
collects the queries the pipeline ran with, in order; a ProcError raised by
process escapes the loop.  fuel bounds how many loop iterations the model
unfolds. -/
def driverLoop {σ : Type} (P : ProcIface σ) (s : σ) (raw : List Char) :
    Nat → Except DriverError (List (List Char))
  | 0 => Except.error DriverError.fuelOut
  | fuel + 1 =>
    if P.is_done s then Except.ok []
    else
      match P.process s raw with
      | (Except.ok q, s2) => (driverLoop P s2 raw fuel).map (fun qs => q :: qs)
      | (Except.error e, _) => Except.error (DriverError.procError e)

/-- main: when the search string has no '-' the pipeline runs once with the
raw string; otherwise the substitution loop drives the pipeline. -/
def mainQueries {σ : Type} (P : ProcIface σ) (s : σ) (raw : List Char)
    (fuel : Nat) : Except DriverError (List (List Char)) :=
  if raw.contains '-' then driverLoop P s raw fuel
  else Except.ok [raw]

/-- The alphabet has 26 letters. -/
theorem alphabet_length : ALPHABET.length = 26 := by decide

/-- No letter of the alphabet is the placeholder character. -/
theorem alphabet_no_dash : ∀ c ∈ ALPHABET, c ≠ '-' := by decide

/-- Python's membership test, as used by main, agrees with list membership. -/
theorem contains_dash_iff (t : List Char) : t.contains '-' = true ↔ '-' ∈ t := by
  simp [List.contains_eq_any_beq]

/-- Indexing inside the alphabet succeeds and agrees with getD. -/
theorem alphabet_get? (j : Nat) (hj : j < 26) :
    ALPHABET[j]? = some (ALPHABET.getD j 'a') := by
  have hj' : j < ALPHABET.length := by rw [alphabet_length]; exact hj
  simp [List.getD, List.getElem?_eq_getElem hj']

/-- One successful process call from cursor position j < 26. -/
theorem process_step (t : List Char) (j : Nat) (hj : j < 26) :
    DashSub.process ⟨j, decide (j = 26)⟩ t =
      (Except.ok (replaceDash (ALPHABET.getD j 'a') t),
       ⟨j + 1, decide (j + 1 = 26)⟩) := by
  have hj' : j < ALPHABET.length := by rw [alphabet_length]; exact hj
  have hd : decide (j = 26) = false := decide_eq_false (by omega)
  have hget : ALPHABET[j]? = some (ALPHABET.getD j 'a') := alphabet_get? j hj
  have hdone : (if j = ALPHABET.length - 1 then true else false)
      = decide (j + 1 = 26) := by
    rw [alphabet_length]
    by_cases h25 : j = 25
    · subst h25; decide
    · rw [if_neg (by omega)]
      exact (decide_eq_false (by omega)).symm
  simp only [DashSub.process, hd, hget]
  simp [hdone]

/-- A run of k process calls from cursor position j with j + k ≤ 26: every
call succeeds, the outputs use the letters from position j on, in order, and
the final cursor is j + k. -/
theorem iterate_spec (text : List Char) (k : Nat) :
    ∀ j, j + k ≤ 26 →
      DashSub.iterate ⟨j, decide (j = 26)⟩ text k =
        (Except.ok (((ALPHABET.drop j).take k).map (fun c => replaceDash c text)),
         ⟨j + k, decide (j + k = 26)⟩) := by
  induction k with
  | zero =>
    intro j h
    simp [DashSub.iterate]
  | succ k ih =>
    intro j h
    have hj : j < 26 := by omega
    have hj' : j < ALPHABET.length := by rw [alphabet_length]; omega
    have hdrop : ALPHABET.drop j = ALPHABET.getD j 'a' :: ALPHABET.drop (j + 1) := by
      rw [List.drop_eq_getElem_cons hj']
      simp [List.getD, List.getElem?_eq_getElem hj']
    have harith : j + 1 + k = j + (k + 1) := by omega
    rw [DashSub.iterate, process_step text j hj]
    dsimp only
    rw [ih (j + 1) (by omega), hdrop, List.take_succ_cons, List.map_cons, harith]

/-- Invariant of reachable cycler states: the cursor stays within [0,26] and
the done flag holds exactly at cursor 26. -/
theorem reachable_inv (s : DashSub) (hr : Reachable s) :
    s._index ≤ 26 ∧ (s.is_done = true ↔ s._index = 26) := by
  induction hr with
  | init => simp [DashSub.init, DashSub.is_done]
  | step s text out s2 hr heq ih =>
    simp only [DashSub.process] at heq
    by_cases hd : s._done
    · rw [if_pos hd] at heq
      simp at heq
    · rw [if_neg hd] at heq
      cases hget : ALPHABET[s._index]? with
      | none =>
        rw [hget] at heq
        simp at heq
      | some c =>
        rw [hget] at heq
        have hidx : s._index < ALPHABET.length := by
          by_contra hc
          rw [List.getElem?_eq_none (by omega)] at hget
          simp at hget
        injection heq with h1 h2
        subst h2
        rw [alphabet_length] at hidx
        simp only [DashSub.is_done, alphabet_length]
        by_cases h25 : s._index = 25
        · simp [h25]
        · have hd' : s._done = false := by
            revert hd
            cases s._done <;> simp
          rw [if_neg (by omega)]
          rw [hd']
          constructor
          · omega
          · simp
            omega

/-- With enough fuel, the driver loop started at cursor position j runs one
pipeline query per remaining letter and then stops because the cycler
reports done; no error escapes. -/
theorem driverLoop_dash (raw : List Char) :
    ∀ fuel j, j ≤ 26 → 27 - j ≤ fuel →
      driverLoop dashIface ⟨j, decide (j = 26)⟩ raw fuel =
        Except.ok ((ALPHABET.drop j).map (fun c => replaceDash c raw)) := by
  intro fuel
  induction fuel with
  | zero =>
    intro j h1 h2
    omega
  | succ fuel ih =>
    intro j h1 h2
    by_cases hj : j = 26
    · subst hj
      rw [driverLoop]
      rw [show dashIface.is_done ⟨26, decide (26 = 26)⟩ = true from rfl]
      rw [show ALPHABET.drop 26 = [] by decide]
      simp
    · have hj' : j < 26 := by omega
      have hjl : j < ALPHABET.length := by rw [alphabet_length]; omega
      have hdone : dashIface.is_done ⟨j, decide (j = 26)⟩ = false := by
        simp only [dashIface, DashSub.is_done]
        exact decide_eq_false (by omega)
      rw [driverLoop, hdone]
      rw [if_neg (by simp)]
      rw [show dashIface.process = DashSub.process from rfl, process_step raw j hj']
      dsimp only
      rw [ih (j + 1) (by omega) (by omega)]
      have hdrop : ALPHABET.drop j = ALPHABET.getD j 'a' :: ALPHABET.drop (j + 1) := by
        rw [List.drop_eq_getElem_cons hjl]
        simp [List.getD, List.getElem?_eq_getElem hjl]
      rw [hdrop, List.map_cons]
      rfl

/-- Substitution leaves a placeholder-free string unchanged. -/
theorem replaceDash_of_no_dash (c : Char) (text : List Char) (h : '-' ∉ text) :
    replaceDash c text = text := by
  induction text with
  | nil => rfl
  | cons a as iha =>
    simp only [List.mem_cons, not_or] at h
    simp only [replaceDash, List.map_cons]
    rw [if_neg (fun ha => h.1 ha.symm)]
    rw [show (as.map fun x => if x = '-' then c else x) = replaceDash c as from rfl]
    rw [iha h.2]

/-- C1: 26 process calls on a fresh letter cycler all succeed; the i-th
output (1-indexed, here index i-1) is the input with every '-' replaced by
the i-th lowercase letter; is_done is false after each of the first 25 calls
and true exactly after the 26th; placeholder-free input is returned
unchanged and empty input yields empty output. -/
theorem letter_cycler_26_calls (text : List Char) :
    DashSub.iterate DashSub.init text 26 =
      (Except.ok (ALPHABET.map (fun c => replaceDash c text)), ⟨26, true⟩) ∧
    (∀ i, i < 26 →
      (ALPHABET.map (fun c => replaceDash c text)).getD i [] =
        replaceDash (ALPHABET.getD i 'a') text) ∧
    (∀ k, k ≤ 26 →
      ((DashSub.iterate DashSub.init text k).2).is_done = decide (k = 26)) ∧
    ('-' ∉ text → ∀ c ∈ ALPHABET, replaceDash c text = text) ∧
    (∀ c, replaceDash c [] = []) := by
  refine ⟨?_, ?_, ?_, ?_, ?_⟩
  · have h := iterate_spec text 26 0 (by omega)
    rw [show (⟨0, decide (0 = 26)⟩ : DashSub) = DashSub.init from rfl] at h
    rw [show ALPHABET.drop 0 = ALPHABET from rfl] at h
    rw [show ALPHABET.take 26 = ALPHABET by decide] at h
    exact h
  · intro i hi
    have him : i < (ALPHABET.map (fun c => replaceDash c text)).length := by
      rw [List.length_map, alphabet_length]
      omega
    have hil : i < ALPHABET.length := by rw [alphabet_length]; omega
    simp [List.getD, List.getElem?_eq_getElem him, List.getElem_map]
    rw [List.getElem?_eq_getElem hil]
    rfl
  · intro k hk
    have h := iterate_spec text k 0 (by omega)
    rw [show (⟨0, decide (0 = 26)⟩ : DashSub) = DashSub.init from rfl] at h
    rw [h]
    simp [DashSub.is_done]
  · intro hnd c hc
    exact replaceDash_of_no_dash c text hnd
  · intro c
    rfl

/-- Witness for the letter-cycler theorem at concrete inputs. -/
theorem letter_cycler_26_calls_witness :
    (ALPHABET.map (fun c => replaceDash c ('x' :: '-' :: []))).getD 2 [] =
      replaceDash (ALPHABET.getD 2 'a') ('x' :: '-' :: []) ∧
    ((DashSub.iterate DashSub.init ('x' :: '-' :: []) 5).2).is_done =
      decide (5 = 26) ∧
    replaceDash 'q' ('x' :: []) = ('x' :: []) :=
  ⟨(letter_cycler_26_calls ('x' :: '-' :: [])).2.1 2 (by decide),
   (letter_cycler_26_calls ('x' :: '-' :: [])).2.2.1 5 (by decide),
   (letter_cycler_26_calls ('x' :: [])).2.2.2.1 (by decide) 'q' (by decide)⟩

/-- C5: every reachable cycler state keeps its cursor within [0,26] with
is_done true exactly at cursor 26; after k ≤ 26 calls on a fresh cycler the
cursor is k and the done flag is set exactly at k = 26, so the cycler
becomes done exactly after its 26th successful call and not before. -/
theorem cycler_state_invariant :
    (∀ s : DashSub, Reachable s →
      s._index ≤ 26 ∧ (s.is_done = true ↔ s._index = 26)) ∧
    (∀ text : List Char, ∀ k, k ≤ 26 →
      (DashSub.iterate DashSub.init text k).2 = ⟨k, decide (k = 26)⟩) := by
  constructor
  · exact reachable_inv
  · intro text k hk
    have h := iterate_spec text k 0 (by omega)
    rw [show (⟨0, decide (0 = 26)⟩ : DashSub) = DashSub.init from rfl] at h
    rw [h]
    simp

/-- Witness for the cycler invariant at the fresh state and a full run. -/
theorem cycler_state_invariant_witness :
    (DashSub.init._index ≤ 26 ∧
      (DashSub.init.is_done = true ↔ DashSub.init._index = 26)) ∧
    (DashSub.iterate DashSub.init ('-' :: []) 26).2 = ⟨26, decide (26 = 26)⟩ :=
  ⟨cycler_state_invariant.1 DashSub.init Reachable.init,
   cycler_state_invariant.2 ('-' :: []) 26 (by decide)⟩

/-- C6: the 27th process call on a fresh cycler raises ExhaustedError; once
done, current_letter is the empty string; before completion, current_letter
is exactly the letter the next process call substitutes. -/
theorem cycler_27th_call_exhausted (text t : List Char) :
    ((DashSub.iterate DashSub.init text 26).2).process t =
      (Except.error ProcError.exhausted, (DashSub.iterate DashSub.init text 26).2) ∧
    ((DashSub.iterate DashSub.init text 26).2).current_letter = some [] ∧
    (∀ s : DashSub, Reachable s → s.is_done = false →
      s.current_letter = some (ALPHABET.getD s._index 'a' :: []) ∧
      (s.process t).1 = Except.ok (replaceDash (ALPHABET.getD s._index 'a') t)) := by
  have h26 : (DashSub.iterate DashSub.init text 26).2 = ⟨26, true⟩ := by
    have h := iterate_spec text 26 0 (by omega)
    rw [show (⟨0, decide (0 = 26)⟩ : DashSub) = DashSub.init from rfl] at h
    rw [h]
    simp
  refine ⟨?_, ?_, ?_⟩
  · rw [h26]
    rfl
  · rw [h26]
    rfl
  · intro s hr hnd
    have hinv := reachable_inv s hr
    have hidx : s._index < 26 := by
      by_contra hc
      have h26' : s._index = 26 := by omega
      have ht := hinv.2.mpr h26'
      simp [ht] at hnd
    have hjl : s._index < ALPHABET.length := by rw [alphabet_length]; omega
    have hdf : s._done = false := hnd
    have hs : s = (⟨s._index, decide (s._index = 26)⟩ : DashSub) := by
      rw [decide_eq_false (by omega : ¬ s._index = 26), ← hdf]
    constructor
    · unfold DashSub.current_letter
      rw [hdf, if_neg (by simp)]
      rw [alphabet_get? s._index hidx]
    · have hp := process_step t s._index hidx
      rw [← hs] at hp
      rw [hp]

/-- Witness for the exhaustion theorem at a concrete run and fresh state. -/
theorem cycler_27th_call_exhausted_witness :
    ((DashSub.iterate DashSub.init ('-' :: []) 26).2).process ('-' :: []) =
      (Except.error ProcError.exhausted,
       (DashSub.iterate DashSub.init ('-' :: []) 26).2) ∧
    DashSub.init.current_letter = some (ALPHABET.getD DashSub.init._index 'a' :: []) ∧
    (DashSub.init.process ('-' :: [])).1 =
      Except.ok (replaceDash (ALPHABET.getD DashSub.init._index 'a') ('-' :: [])) :=
  ⟨(cycler_27th_call_exhausted ('-' :: []) ('-' :: [])).1,
   ((cycler_27th_call_exhausted ('-' :: []) ('-' :: [])).2.2 DashSub.init
     Reachable.init rfl).1,
   ((cycler_27th_call_exhausted ('-' :: []) ('-' :: [])).2.2 DashSub.init
     Reachable.init rfl).2⟩

/-- C7: the pass-through processor returns its input unchanged on the first
call, is not done before it and done immediately after it, and a second
process call raises ExhaustedError. -/
theorem pass_through_contract (s t : List Char) :
    Search.init.is_done = false ∧
    Search.init.process s = (Except.ok s, ⟨true⟩) ∧
    ((Search.init.process s).2).is_done = true ∧
    ((Search.init.process s).2).process t =
      (Except.error ProcError.exhausted, (Search.init.process s).2) :=
  ⟨rfl, rfl, rfl, rfl⟩

/-- C9: calling process on an already-done processor raises before any state
mutation: the post-call state is the untouched input state, for both the
cycler and the pass-through module, so is_done stays true and the cycler's
current_letter stays empty. -/
theorem exhausted_call_leaves_state (t : List Char) :
    (∀ s : DashSub, s.is_done = true →
      s.process t = (Except.error ProcError.exhausted, s) ∧
      s.current_letter = some []) ∧
    (∀ p : Search, p.is_done = true →
      p.process t = (Except.error ProcError.exhausted, p)) := by
  constructor
  · intro s hs
    have hd : s._done = true := hs
    constructor
    · unfold DashSub.process
      rw [if_pos hd]
    · unfold DashSub.current_letter
      rw [if_pos hd]
  · intro p hp
    have hd : p._done = true := hp
    unfold Search.process
    rw [if_pos hd]

/-- Witness for the atomicity theorem at concrete done states. -/
theorem exhausted_call_leaves_state_witness :
    ((⟨26, true⟩ : DashSub).process [] =
        (Except.error ProcError.exhausted, (⟨26, true⟩ : DashSub)) ∧
      (⟨26, true⟩ : DashSub).current_letter = some []) ∧
    (⟨true⟩ : Search).process [] =
      (Except.error ProcError.exhausted, (⟨true⟩ : Search)) :=
  ⟨(exhausted_call_leaves_state []).1 ⟨26, true⟩ rfl,
   (exhausted_call_leaves_state []).2 ⟨true⟩ rfl⟩

/-- A slice of the empty list is empty for every int bound. -/
theorem pyTake_nil (n : Int) : pyTake ([] : List SearchResult) n = [] := by
  unfold pyTake
  split <;> simp

/-- A concrete search result used in counterexamples and witnesses. -/
def sampleResult : SearchResult := ⟨['t'], ['u'], [], ['e']⟩

/-- C2 as stated fails for a negative cap: with cap -1, Python slicing keeps
one of the engine's two results, which is not at most -1 entries. -/
theorem bounded_search_negative_cap_cex :
    ¬ (((search_single_engine (Except.ok (sampleResult :: sampleResult :: []))
        (-1)).length : Int) ≤ -1) := by
  decide

/-- C2 amended: for every engine outcome and every nonnegative cap, bounded
search returns at most cap entries, which form an order-preserving front
segment of the engine's sequence (the empty sequence when the engine
raised); with the default cap of 20 an engine producing 25 results yields
exactly 20. -/
theorem bounded_search_cap (outcome : Except String (List SearchResult))
    (cap : Int) (hcap : 0 ≤ cap) :
    ((search_single_engine outcome cap).length : Int) ≤ cap ∧
    (search_single_engine outcome cap) <+:
      (match outcome with | Except.ok rs => rs | Except.error _ => []) ∧
    (∀ rs : List SearchResult, rs.length = 25 →
      (search_single_engine (Except.ok rs)
        DEFAULT_MAX_RESULTS_PER_ENGINE).length = 20) := by
  have hunf : ∀ o : Except String (List SearchResult), ∀ n : Int, 0 ≤ n →
      search_single_engine o n =
        (match o with | Except.ok rs => rs | Except.error _ => []).take n.toNat := by
    intro o n hn
    unfold search_single_engine pyTake
    rw [if_pos hn]
  refine ⟨?_, ?_, ?_⟩
  · rw [hunf outcome cap hcap]
    have h1 := List.length_take_le cap.toNat
      (match outcome with | Except.ok rs => rs | Except.error _ => [])
    omega
  · rw [hunf outcome cap hcap]
    exact ⟨_, List.take_append_drop _ _⟩
  · intro rs hrs
    rw [hunf _ DEFAULT_MAX_RESULTS_PER_ENGINE (by decide)]
    rw [List.length_take, hrs]
    decide

/-- Witness for the amended bounded-search theorem at concrete inputs. -/
theorem bounded_search_cap_witness :
    ((search_single_engine (Except.ok (sampleResult :: [])) 3).length : Int) ≤ 3 ∧
    (search_single_engine (Except.ok (sampleResult :: [])) 3) <+:
      (sampleResult :: []) ∧
    (search_single_engine (Except.ok (List.replicate 25 sampleResult))
      DEFAULT_MAX_RESULTS_PER_ENGINE).length = 20 := by
  have h := bounded_search_cap (Except.ok (sampleResult :: [])) 3 (by decide)
  exact ⟨h.1, h.2.1, h.2.2 (List.replicate 25 sampleResult) (by decide)⟩

/-- C3: a raised engine exception is caught inside bounded search, which
returns the empty sequence and never propagates, and the pipeline still
renders every other engine's bounded results, in the original engine
order. -/
theorem engine_failure_isolated (pre post : List EngineCall) (nm : List Char)
    (msg : String) (cap : Int) :
    search_single_engine (Except.error msg) cap = [] ∧
    run_search_pipeline (pre ++ ⟨nm, Except.error msg⟩ :: post) cap =
      run_search_pipeline pre cap ++
        (nm, []) :: run_search_pipeline post cap := by
  have hfail : search_single_engine (Except.error msg) cap = [] := by
    unfold search_single_engine
    exact pyTake_nil cap
  refine ⟨hfail, ?_⟩
  unfold run_search_pipeline
  rw [List.map_append, List.map_cons]
  dsimp only
  rw [hfail]

/-- C8: the pipeline renders engine blocks strictly in the supplied engine
order; with the default cap, engines returning 25 and 3 results render 20
and 3 results, in engine-list order. -/
theorem render_order_follows_engine_order (engines : List EngineCall)
    (cap : Int) (nmA nmB : List Char) (rsA rsB : List SearchResult)
    (hA : rsA.length = 25) (hB : rsB.length = 3) :
    (run_search_pipeline engines cap).map Prod.fst =
      engines.map EngineCall.name ∧
    (run_search_pipeline
        (⟨nmA, Except.ok rsA⟩ :: ⟨nmB, Except.ok rsB⟩ :: [])
        DEFAULT_MAX_RESULTS_PER_ENGINE).map (fun p => (p.1, p.2.length)) =
      ((nmA, 20) :: (nmB, 3) :: []) := by
  constructor
  · unfold run_search_pipeline
    rw [List.map_map]
    rfl
  · have h20 : (search_single_engine (Except.ok rsA)
        DEFAULT_MAX_RESULTS_PER_ENGINE).length = 20 := by
      unfold search_single_engine pyTake
      rw [if_pos (by decide)]
      rw [List.length_take, hA]
      decide
    have h3 : (search_single_engine (Except.ok rsB)
        DEFAULT_MAX_RESULTS_PER_ENGINE).length = 3 := by
      unfold search_single_engine pyTake
      rw [if_pos (by decide)]
      rw [List.length_take, hB]
      decide
    unfold run_search_pipeline
    simp only [List.map_cons, List.map_nil]
    rw [h20, h3]

/-- Witness for the render-order theorem at concrete engine results. -/
theorem render_order_follows_engine_order_witness :
    (run_search_pipeline
        ((⟨'A' :: [], Except.ok (List.replicate 25 sampleResult)⟩ : EngineCall) ::
         (⟨'B' :: [], Except.ok (List.replicate 3 sampleResult)⟩ : EngineCall) :: [])
        DEFAULT_MAX_RESULTS_PER_ENGINE).map (fun p => (p.1, p.2.length)) =
      (('A' :: [], 20) :: ('B' :: [], 3) :: []) :=
  (render_order_follows_engine_order [] 0 ('A' :: []) ('B' :: [])
    (List.replicate 25 sampleResult) (List.replicate 3 sampleResult)
    (by decide) (by decide)).2

/-- C4: main runs the pipeline exactly once with the raw query when it has
no placeholder; with a placeholder, the loop checks is_done before every
process call and terminates after exactly 26 pipeline runs for the letter
cycler and 1 for the pass-through module, returning ok, so ExhaustedError is
never raised in normal driver-loop execution. -/
theorem driver_loop_state_machine (raw : List Char) (fuel : Nat) :
    (raw.contains '-' = false →
      mainQueries dashIface DashSub.init raw fuel = Except.ok (raw :: [])) ∧
    (raw.contains '-' = true → 27 ≤ fuel →
      mainQueries dashIface DashSub.init raw fuel =
        Except.ok (ALPHABET.map (fun c => replaceDash c raw))) ∧
    (2 ≤ fuel →
      driverLoop searchIface Search.init raw fuel = Except.ok (raw :: [])) := by
  refine ⟨?_, ?_, ?_⟩
  · intro h
    unfold mainQueries
    rw [h]
    simp
  · intro h hfuel
    unfold mainQueries
    rw [h, if_pos rfl]
    have hd := driverLoop_dash raw fuel 0 (by omega) (by omega)
    rw [show (⟨0, decide (0 = 26)⟩ : DashSub) = DashSub.init from rfl] at hd
    rw [hd]
    rfl
  · intro hfuel
    obtain ⟨m, rfl⟩ : ∃ m, fuel = m + 2 := ⟨fuel - 2, by omega⟩
    rfl

/-- Witness for the driver-loop theorem at concrete queries and fuel. -/
theorem driver_loop_state_machine_witness :
    mainQueries dashIface DashSub.init ('x' :: []) 0 =
      Except.ok (('x' :: []) :: []) ∧
    mainQueries dashIface DashSub.init ('-' :: []) 27 =
      Except.ok (ALPHABET.map (fun c => replaceDash c ('-' :: []))) ∧
    driverLoop searchIface Search.init ('-' :: []) 2 =
      Except.ok (('-' :: []) :: []) :=
  ⟨(driver_loop_state_machine ('x' :: []) 0).1 (by decide),
   (driver_loop_state_machine ('-' :: []) 27).2.1 (by decide) (by decide),
   (driver_loop_state_machine ('-' :: []) 2).2.2 (by decide)⟩

/-- C10: every successful process output of the cycler has exactly the same
length as the input and contains no placeholder character, so a substituted
query can never re-trigger the placeholder detection of main. -/
theorem substituted_query_no_placeholder (s : DashSub) (t out : List Char)
    (s2 : DashSub) (h : s.process t = (Except.ok out, s2)) :
    out.length = t.length ∧ '-' ∉ out ∧ out.contains '-' = false := by
  simp only [DashSub.process] at h
  by_cases hd : s._done
  · rw [if_pos hd] at h
    simp at h
  · rw [if_neg hd] at h
    cases hget : ALPHABET[s._index]? with
    | none =>
      rw [hget] at h
      simp at h
    | some c =>
      rw [hget] at h
      injection h with h1 h2
      injection h1 with h1
      subst h1
      have hidx : s._index < ALPHABET.length := by
        by_contra hcx
        rw [List.getElem?_eq_none (by omega)] at hget
        simp at hget
      have hc : c ∈ ALPHABET := by
        rw [List.getElem?_eq_getElem hidx] at hget
        injection hget with hg
        rw [← hg]
        exact List.getElem_mem hidx
      have hcd : c ≠ '-' := alphabet_no_dash c hc
      have hnm : '-' ∉ replaceDash c t := by
        intro hm
        simp only [replaceDash, List.mem_map] at hm
        obtain ⟨x, hx, hfx⟩ := hm
        by_cases hxd : x = '-'
        · rw [if_pos hxd] at hfx
          exact hcd hfx
        · rw [if_neg hxd] at hfx
          exact hxd hfx
      refine ⟨by simp [replaceDash], hnm, ?_⟩
      cases hcb : (replaceDash c t).contains '-'
      · rfl
      · exact absurd ((contains_dash_iff _).mp hcb) hnm

/-- Witness for the no-placeholder theorem at a concrete process call. -/
theorem substituted_query_no_placeholder_witness :
    (replaceDash 'a' ('-' :: 'x' :: [])).length = ('-' :: 'x' :: []).length ∧
    '-' ∉ replaceDash 'a' ('-' :: 'x' :: []) ∧
    (replaceDash 'a' ('-' :: 'x' :: [])).contains '-' = false :=
  substituted_query_no_placeholder DashSub.init ('-' :: 'x' :: [])
    (replaceDash 'a' ('-' :: 'x' :: [])) ⟨1, false⟩ rfl

end SearchDash
